import Mathlib

/-!
Shallow embedding of the lazydodo-bot core (Go sources
`internal/discord/discord.go` and `internal/utils/duration.go`) and
verification of its specified properties.

Time instants and durations are modelled as `Int` (Go `time.Time` /
`time.Duration` are nanosecond counts); `t1.After t2` is `t2 < t1`,
`t1.Before t2` is `t1 < t2`, `t.Add (-offset)` is `t - offset`.
-/

namespace LazyDodo

/-- The `Reminder` struct of `discord.go`. `Now` is the `IsImmediate`
flag of the spec: true only for the reminder firing at the start time. -/
structure Reminder where
  EventID : String
  EventName : String
  EventURL : String
  StartTime : Int
  RemindAt : Int
  Now : Bool
deriving DecidableEq, Repr

/-- The mutable `ReminderStore.Pending` slice: an ordered collection of
pending reminders (the mutex is irrelevant to the sequential model). -/
abbrev Store := List Reminder

/-- The per-tick partition performed by `reminderWorker` in `discord.go`:
a reminder is sent (first component) when `now.After(r.RemindAt)` holds,
i.e. `r.RemindAt < now`, and kept in `remaining` (second component)
otherwise.  `store.Pending` is replaced by the second component. -/
def drainDue (now : Int) (pending : Store) : Store × Store :=
  (pending.filter (fun r => decide (r.RemindAt < now)),
   pending.filter (fun r => !(decide (r.RemindAt < now))))

/-- `removeRemindersForEvent` from `discord.go`: keep exactly the
reminders whose `EventID` does not match. -/
def removeRemindersForEvent (eventID : String) (pending : Store) : Store :=
  pending.filter (fun r => !(r.EventID == eventID))

/-- The fields of `discordgo.GuildScheduledEvent` used by the bot. -/
structure GuildScheduledEvent where
  ID : String
  GuildID : String
  Name : String
  ScheduledStartTime : Int
deriving DecidableEq, Repr

/-- The event URL computed in `createRemindersForEvent`/`queueReminders`. -/
def eventURL (e : GuildScheduledEvent) : String :=
  "https://discord.com/events/" ++ e.GuildID ++ "/" ++ e.ID

/-- The non-immediate reminder appended by `queueReminders` for one
configured offset. -/
def offsetReminder (e : GuildScheduledEvent) (offset : Int) : Reminder :=
  { EventID := e.ID
    EventName := e.Name
    EventURL := eventURL e
    StartTime := e.ScheduledStartTime
    RemindAt := e.ScheduledStartTime - offset
    Now := false }

/-- The `Now = true` reminder appended by `queueReminders` when the
start time is still in the future. -/
def immediateReminder (e : GuildScheduledEvent) : Reminder :=
  { EventID := e.ID
    EventName := e.Name
    EventURL := eventURL e
    StartTime := e.ScheduledStartTime
    RemindAt := e.ScheduledStartTime
    Now := true }

/-- The list of reminders `queueReminders` appends to `store.Pending`
for one event: for each offset, the reminder at `start - offset` when
`time.Now().Before(remindTime)`, then the immediate reminder when
`time.Now().Before(event.ScheduledStartTime)`.  `now` is the derivation
instant. -/
def derivedReminders (now : Int) (offsets : List Int)
    (e : GuildScheduledEvent) : List Reminder :=
  (offsets.filterMap (fun offset =>
    if now < e.ScheduledStartTime - offset then some (offsetReminder e offset)
    else none))
  ++ (if now < e.ScheduledStartTime then [immediateReminder e] else [])

/-- `queueReminders` from `discord.go`: appends the derived reminders
for `e` to the pending collection (offsets =
`config.GlobalConfig.Discord.Eventer.ReminderOffsets`). -/
def queueReminders (now : Int) (offsets : List Int) (e : GuildScheduledEvent)
    (pending : Store) : Store :=
  pending ++ derivedReminders now offsets e

/-! ## DurationFormatter (`internal/utils/duration.go`) -/

/-- Go `utils.Language` is an `int` (`English Language = iota`). -/
abbrev Language := Int

/-- `utils.English`. -/
def English : Language := 0

/-- `utils.German`. -/
def German : Language := 1

/-- The `unit` struct of `duration.go`: singular and plural forms. -/
structure TimeUnit where
  singular : String
  plural : String
deriving DecidableEq, Repr

/-- The `units` map of `duration.go` as a function; an unknown language
selector falls back to English (`u, ok := units[lang]; if !ok ...`).
The inner map is only ever consulted at the keys `day`, `hour`,
`minute`. -/
def unitsFor (lang : Language) (name : String) : TimeUnit :=
  if lang = German then
    if name = "day" then ⟨"Tag", "Tage"⟩
    else if name = "hour" then ⟨"Stunde", "Stunden"⟩
    else ⟨"Minute", "Minuten"⟩
  else
    if name = "day" then ⟨"day", "days"⟩
    else if name = "hour" then ⟨"hour", "hours"⟩
    else ⟨"minute", "minutes"⟩

/-- `pluralize` from `duration.go`. -/
def pluralize (count : Nat) (u : TimeUnit) : String :=
  if count = 1 then u.singular else u.plural

/-- One minute in nanoseconds (`time.Minute`). -/
def minuteNS : Nat := 60000000000

/-- One hour in nanoseconds (`time.Hour`). -/
def hourNS : Nat := 3600000000000

/-- The day/hour/minute rule as the spec states it (§4.1, §8), with exact
integer arithmetic: the reference `FormatDuration` is compared against.
`d` is a `time.Duration` (nanoseconds); `int(d.Minutes())` /
`int(d.Hours())` are taken as exact floor divisions here — the real
`duration.go` computes them through float64, see `FormatDuration` below. -/
def formatDurationRule (d : Int) (lang : Language) : String :=
  if d < 0 then ""
  else
    let u := unitsFor lang
    let totalMinutes : Nat := d.toNat / minuteNS
    let totalHours : Nat := d.toNat / hourNS
    let days := totalHours / 24
    let hours := totalHours % 24
    let minutes := totalMinutes % 60
    if 1 ≤ days then
      if hours = 0 then
        Nat.repr days ++ " " ++ pluralize days (u "day")
      else
        Nat.repr days ++ " " ++ pluralize days (u "day") ++ " " ++
          Nat.repr hours ++ " " ++ pluralize hours (u "hour")
    else if 1 ≤ totalHours then
      if minutes = 0 then
        Nat.repr totalHours ++ " " ++ pluralize totalHours (u "hour")
      else
        Nat.repr totalHours ++ " " ++ pluralize totalHours (u "hour") ++ " " ++
          Nat.repr minutes ++ " " ++ pluralize minutes (u "minute")
    else
      Nat.repr totalMinutes ++ " " ++ pluralize totalMinutes (u "minute")


lemma formatDurationRule_natCast (n : Nat) (lang : Language) :
    formatDurationRule (n : Int) lang =
      (let u := unitsFor lang
       let totalMinutes : Nat := n / minuteNS
       let totalHours : Nat := n / hourNS
       let days := totalHours / 24
       let hours := totalHours % 24
       let minutes := totalMinutes % 60
       if 1 ≤ days then
         if hours = 0 then
           Nat.repr days ++ " " ++ pluralize days (u "day")
         else
           Nat.repr days ++ " " ++ pluralize days (u "day") ++ " " ++
             Nat.repr hours ++ " " ++ pluralize hours (u "hour")
       else if 1 ≤ totalHours then
         if minutes = 0 then
           Nat.repr totalHours ++ " " ++ pluralize totalHours (u "hour")
         else
           Nat.repr totalHours ++ " " ++ pluralize totalHours (u "hour") ++ " " ++
             Nat.repr minutes ++ " " ++ pluralize minutes (u "minute")
       else
         Nat.repr totalMinutes ++ " " ++ pluralize totalMinutes (u "minute")) := by
  simp [formatDurationRule, Int.toNat_natCast]

lemma decomp_div (a b c : Nat) (ha : 0 < a) (hc : c < a) : (a * b + c) / a = b := by
  rw [Nat.mul_add_div ha, Nat.div_eq_of_lt hc, Nat.add_zero]

lemma hours_of_decomp (D H M r : Nat) (hM : M < 60) (hr : r < minuteNS) :
    (hourNS * 24 * D + hourNS * H + minuteNS * M + r) / hourNS = 24 * D + H := by
  have h1 : hourNS * 24 * D + hourNS * H + minuteNS * M + r
      = hourNS * (24 * D + H) + (minuteNS * M + r) := by ring
  rw [h1, decomp_div]
  · simp [hourNS]
  · simp only [minuteNS, hourNS] at *
    omega

lemma minutes_of_decomp (D H M r : Nat) (hr : r < minuteNS) :
    (hourNS * 24 * D + hourNS * H + minuteNS * M + r) / minuteNS
      = 1440 * D + 60 * H + M := by
  have h1 : hourNS * 24 * D + hourNS * H + minuteNS * M + r
      = minuteNS * (1440 * D + 60 * H + M) + r := by
    simp only [minuteNS, hourNS]; ring
  rw [h1, decomp_div]
  · simp [minuteNS]
  · exact hr

lemma formatDurationRule_days (lang : Language) (D H M r : Nat) (hD : 1 ≤ D) (hH : H < 24)
    (hM : M < 60) (hr : r < minuteNS) :
    formatDurationRule ((hourNS * 24 * D + hourNS * H + minuteNS * M + r : Nat) : Int) lang =
      Nat.repr D ++ " " ++ pluralize D (unitsFor lang "day") ++
        (if H = 0 then ""
         else " " ++ Nat.repr H ++ " " ++ pluralize H (unitsFor lang "hour")) := by
  rw [formatDurationRule_natCast]
  simp only [hours_of_decomp D H M r hM hr, minutes_of_decomp D H M r hr]
  have hdays : (24 * D + H) / 24 = D := by omega
  have hhours : (24 * D + H) % 24 = H := by omega
  rw [hdays, hhours, if_pos hD]
  by_cases h0 : H = 0
  · rw [if_pos h0, if_pos h0]
    simp
  · rw [if_neg h0, if_neg h0]
    simp [String.append_assoc]

lemma formatDurationRule_hours (lang : Language) (H M r : Nat) (hD : 1 ≤ H) (hH : H < 24)
    (hM : M < 60) (hr : r < minuteNS) :
    formatDurationRule ((hourNS * H + minuteNS * M + r : Nat) : Int) lang =
      Nat.repr H ++ " " ++ pluralize H (unitsFor lang "hour") ++
        (if M = 0 then ""
         else " " ++ Nat.repr M ++ " " ++ pluralize M (unitsFor lang "minute")) := by
  have hshape : hourNS * H + minuteNS * M + r
      = hourNS * 24 * 0 + hourNS * H + minuteNS * M + r := by ring
  rw [hshape, formatDurationRule_natCast]
  simp only [hours_of_decomp 0 H M r hM hr, minutes_of_decomp 0 H M r hr]
  have hdays : (24 * 0 + H) / 24 = 0 := by omega
  have h24 : (24 * 0 + H) = H := by omega
  have hmins : (1440 * 0 + 60 * H + M) % 60 = M := by omega
  rw [hdays, h24, hmins]
  rw [if_neg (by omega), if_pos hD]
  by_cases h0 : M = 0
  · rw [if_pos h0, if_pos h0]
    simp
  · rw [if_neg h0, if_neg h0]
    simp [String.append_assoc]

lemma formatDurationRule_minutes (lang : Language) (M r : Nat) (hM : M < 60) (hr : r < minuteNS) :
    formatDurationRule ((minuteNS * M + r : Nat) : Int) lang =
      Nat.repr M ++ " " ++ pluralize M (unitsFor lang "minute") := by
  rw [formatDurationRule_natCast]
  have hth : (minuteNS * M + r) / hourNS = 0 := by
    apply Nat.div_eq_of_lt
    simp only [minuteNS, hourNS] at *
    omega
  have htm : (minuteNS * M + r) / minuteNS = M := by
    rw [decomp_div]
    · simp [minuteNS]
    · exact hr
  rw [hth, htm]
  simp [Nat.mod_eq_of_lt hM]

/-- The exact-arithmetic `formatDurationRule` implements the spec sentence:
"" on negative spans; on spans of at least one day the day count and, only
when non-zero, the leftover hours; else on spans of at least one hour the
hour count and, only when non-zero, the leftover minutes; else the minute
count alone (including zero); plus the five concrete examples. -/
theorem formatDurationRule_meets_spec :
    (∀ (d : Int) (lang : Language), d < 0 → formatDurationRule d lang = "")
    ∧ (∀ (lang : Language) (D H M r : Nat), 1 ≤ D → H < 24 → M < 60 → r < minuteNS →
        formatDurationRule ((hourNS * 24 * D + hourNS * H + minuteNS * M + r : Nat) : Int) lang =
          Nat.repr D ++ " " ++ pluralize D (unitsFor lang "day") ++
            (if H = 0 then ""
             else " " ++ Nat.repr H ++ " " ++ pluralize H (unitsFor lang "hour")))
    ∧ (∀ (lang : Language) (H M r : Nat), 1 ≤ H → H < 24 → M < 60 → r < minuteNS →
        formatDurationRule ((hourNS * H + minuteNS * M + r : Nat) : Int) lang =
          Nat.repr H ++ " " ++ pluralize H (unitsFor lang "hour") ++
            (if M = 0 then ""
             else " " ++ Nat.repr M ++ " " ++ pluralize M (unitsFor lang "minute")))
    ∧ (∀ (lang : Language) (M r : Nat), M < 60 → r < minuteNS →
        formatDurationRule ((minuteNS * M + r : Nat) : Int) lang =
          Nat.repr M ++ " " ++ pluralize M (unitsFor lang "minute"))
    ∧ formatDurationRule (90 * 60000000000) English = "1 hour 30 minutes"
    ∧ formatDurationRule 0 English = "0 minutes"
    ∧ formatDurationRule (-(5 * 60000000000)) English = ""
    ∧ formatDurationRule (25 * 3600000000000) English = "1 day 1 hour"
    ∧ formatDurationRule (24 * 3600000000000) English = "1 day" := by
  refine ⟨?_, ?_, ?_, ?_, by decide, by decide, by decide, by decide, by decide⟩
  · intro d lang hd
    simp [formatDurationRule, hd]
  · intro lang D H M r hD hH hM hr
    exact formatDurationRule_days lang D H M r hD hH hM hr
  · intro lang H M r h1 hH hM hr
    exact formatDurationRule_hours lang H M r h1 hH hM hr
  · intro lang M r hM hr
    exact formatDurationRule_minutes lang M r hM hr

/-- The day branch of the rule evaluated at one day plus one hour. -/
theorem formatDurationRule_meets_spec_witness :
    formatDurationRule ((hourNS * 24 * 1 + hourNS * 1 + minuteNS * 0 + 0 : Nat) : Int) English =
      Nat.repr 1 ++ " " ++ pluralize 1 (unitsFor English "day") ++
        (if (1 : Nat) = 0 then ""
         else " " ++ Nat.repr 1 ++ " " ++ pluralize 1 (unitsFor English "hour")) :=
  formatDurationRule_meets_spec.2.1 English 1 1 0 0 (by decide) (by decide) (by decide)
    (by decide)

/-- An exact non-negative rational as numerator/denominator (denominator
positive), used to model IEEE-754 binary64 values and the exact
intermediate results they round from. -/
abbrev Frac := Nat × Nat

/-- Scale `a / b` into the binade `[2^52, 2^53)` by doubling numerator or
denominator, returning the scaled fraction and the base-2 exponent shift.
Fuel 200 covers every value this file evaluates. -/
def scale64 : Nat → Nat → Nat → Int → (Nat × Nat × Int)
  | 0, a, b, s => (a, b, s)
  | fuel + 1, a, b, s =>
    if a < 4503599627370496 * b then scale64 fuel (2 * a) b (s + 1)
    else if 9007199254740992 * b ≤ a then scale64 fuel a (2 * b) (s - 1)
    else (a, b, s)

/-- Round the scaled significand `a / b ∈ [2^52, 2^53)` to an integer,
ties to even — the IEEE-754 default rounding. -/
def roundSig (a b : Nat) : Nat :=
  let n := a / b
  let r := a % b
  if 2 * r < b then n
  else if b < 2 * r then n + 1
  else if n % 2 = 0 then n else n + 1

/-- The binary64 value nearest `a / b` (round to nearest, ties to even),
as an exact fraction.  Overflow and subnormal underflow never arise for
the durations of this file. -/
def round64 (a b : Nat) : Frac :=
  if a = 0 then (0, 1)
  else
    match scale64 200 a b 0 with
    | (a1, b1, s) =>
      let n := roundSig a1 b1
      if 0 ≤ s then (n, 2 ^ s.toNat) else (n * 2 ^ (-s).toNat, 1)

/-- Go `time.Duration.Hours()`: `float64(hour) + float64(nsec)/(60*60*1e9)`
with `hour = d / Hour`, `nsec = d % Hour` — each float64 conversion and
operation rounds its exact value to binary64 (the divisor `60*60*1e9` is
exactly representable). -/
def durationHoursF (n : Nat) : Frac :=
  let f1 := round64 (n / 3600000000000) 1
  let fn := round64 (n % 3600000000000) 1
  let f2 := round64 fn.1 (fn.2 * 3600000000000)
  round64 (f1.1 * f2.2 + f2.1 * f1.2) (f1.2 * f2.2)

/-- Go `time.Duration.Minutes()`: `float64(min) + float64(nsec)/(60*1e9)`,
modelled like `durationHoursF`. -/
def durationMinutesF (n : Nat) : Frac :=
  let f1 := round64 (n / 60000000000) 1
  let fn := round64 (n % 60000000000) 1
  let f2 := round64 fn.1 (fn.2 * 60000000000)
  round64 (f1.1 * f2.2 + f2.1 * f1.2) (f1.2 * f2.2)

/-- Go `int(x)` for a non-negative float64 `x`: truncation (= floor). -/
def truncF (f : Frac) : Nat := f.1 / f.2

/-- `FormatDuration` from `duration.go`, faithful to the program:
`totalMinutes`/`totalHours` go through Go's float64 `Duration.Minutes()`
and `Duration.Hours()` (which can round up across unit boundaries on
large spans), then the day/hour/minute branches build the string. -/
def FormatDuration (d : Int) (lang : Language) : String :=
  if d < 0 then ""
  else
    let u := unitsFor lang
    let totalMinutes : Nat := truncF (durationMinutesF d.toNat)
    let totalHours : Nat := truncF (durationHoursF d.toNat)
    let days := totalHours / 24
    let hours := totalHours % 24
    let minutes := totalMinutes % 60
    if 1 ≤ days then
      if hours = 0 then
        Nat.repr days ++ " " ++ pluralize days (u "day")
      else
        Nat.repr days ++ " " ++ pluralize days (u "day") ++ " " ++
          Nat.repr hours ++ " " ++ pluralize hours (u "hour")
    else if 1 ≤ totalHours then
      if minutes = 0 then
        Nat.repr totalHours ++ " " ++ pluralize totalHours (u "hour")
      else
        Nat.repr totalHours ++ " " ++ pluralize totalHours (u "hour") ++ " " ++
          Nat.repr minutes ++ " " ++ pluralize minutes (u "minute")
    else
      Nat.repr totalMinutes ++ " " ++ pluralize totalMinutes (u "minute")

/-- C9: the five example outputs of the spec hold, but the universal
day/hour rule does not hold of the program: at `4097h − 1ns` the float64
`Duration.Hours()` rounds up across the hour boundary, so `FormatDuration`
prints "170 days 17 hours" where the span's true decomposition — and the
spec rule `formatDurationRule`, proved to implement the claim's sentence in
`formatDurationRule_meets_spec` — gives "170 days 16 hours"; at
`4104h − 1ns` it prints "171 days" for a span containing only 170 full
days.  The bug contradicts `duration.go`'s own doc comment
("d >= 1 day: XX days [YY hours]"). -/
theorem c9_float_divergence :
    FormatDuration (90 * 60000000000) English = "1 hour 30 minutes"
    ∧ FormatDuration 0 English = "0 minutes"
    ∧ FormatDuration (-(5 * 60000000000)) English = ""
    ∧ FormatDuration (25 * 3600000000000) English = "1 day 1 hour"
    ∧ FormatDuration (24 * 3600000000000) English = "1 day"
    ∧ FormatDuration (4097 * 3600000000000 - 1) English = "170 days 17 hours"
    ∧ formatDurationRule (4097 * 3600000000000 - 1) English = "170 days 16 hours"
    ∧ FormatDuration (4104 * 3600000000000 - 1) English = "171 days"
    ∧ formatDurationRule (4104 * 3600000000000 - 1) English = "170 days 23 hours" := by
  refine ⟨?_, ?_, ?_, ?_, ?_, ?_, ?_, ?_, ?_⟩ <;> decide


/-- A concrete event used by witnesses and counterexamples. -/
def sampleEvent : GuildScheduledEvent :=
  { ID := "ev1", GuildID := "g1", Name := "Raid Night", ScheduledStartTime := 100 }

/-- A concrete reminder used by witnesses and counterexamples. -/
def sampleReminder : Reminder :=
  { EventID := "ev1", EventName := "Raid Night", EventURL := "u",
    StartTime := 5, RemindAt := 5, Now := true }

/-- Counterexample for C1: a reminder with `RemindAt = 5` satisfies
`RemindAt ≤ now` at `now = 5` but is NOT in the drained (due) part —
the worker uses `now.After(RemindAt)`, which is strict. -/
theorem c1_cex :
    (drainDue 5 [sampleReminder]).1 = [] ∧ sampleReminder.RemindAt ≤ 5 := by
  decide

/-- C1 (amended): the drain step partitions the store, removing and handing
to the sender exactly those reminders whose `RemindAt` is STRICTLY BEFORE
`now` and leaving the rest pending; a reminder with `RemindAt = t` is not
drained at any instant `≤ t` (including `t` itself) and is drained at
any instant `> t`. -/
theorem c1_amended (now : Int) (pending : Store) :
    ((drainDue now pending).1 ++ (drainDue now pending).2).Perm pending
    ∧ (∀ r ∈ pending, (r ∈ (drainDue now pending).1 ↔ r.RemindAt < now))
    ∧ (∀ r ∈ pending, (r ∈ (drainDue now pending).2 ↔ now ≤ r.RemindAt)) := by
  refine ⟨?_, ?_, ?_⟩
  · exact List.filter_append_perm _ pending
  · intro r hr
    simp [drainDue, List.mem_filter, hr]
  · intro r hr
    simp [drainDue, List.mem_filter, hr]

/-- Witness for C1 (amended): the sample reminder due at 5 is drained at 6. -/
theorem c1_amended_witness :
    sampleReminder ∈ (drainDue 6 [sampleReminder]).1 :=
  ((c1_amended 6 [sampleReminder]).2.1 sampleReminder (by decide)).mpr (by decide)

lemma derived_eventID (now : Int) (offsets : List Int) (e : GuildScheduledEvent) :
    ∀ r ∈ derivedReminders now offsets e, r.EventID = e.ID := by
  intro r hr
  simp only [derivedReminders, List.mem_append, List.mem_filterMap] at hr
  rcases hr with ⟨o, _, ho⟩ | hr
  · split at ho
    · cases ho; rfl
    · cases ho
  · split at hr
    · simp at hr; subst hr; rfl
    · simp at hr

/-- C2: purging an event and re-deriving its reminders leaves the store
holding exactly the newly derived reminders for that event, and the
reminders of every other event unchanged. -/
theorem c2_purge_requeue (pending : Store) (e : GuildScheduledEvent)
    (now : Int) (offsets : List Int) :
    (queueReminders now offsets e (removeRemindersForEvent e.ID pending)).filter
        (fun r => r.EventID == e.ID) = derivedReminders now offsets e
    ∧ (queueReminders now offsets e (removeRemindersForEvent e.ID pending)).filter
        (fun r => !(r.EventID == e.ID)) = pending.filter (fun r => !(r.EventID == e.ID)) := by
  constructor
  · rw [queueReminders, List.filter_append]
    rw [removeRemindersForEvent, List.filter_filter]
    have h1 : (pending.filter fun a => (a.EventID == e.ID) && !(a.EventID == e.ID)) = [] := by
      apply List.filter_eq_nil_iff.mpr
      intro r _
      cases h : (r.EventID == e.ID) <;> simp [h]
    have h2 : (derivedReminders now offsets e).filter (fun r => r.EventID == e.ID)
        = derivedReminders now offsets e := by
      apply List.filter_eq_self.mpr
      intro r hr
      simp [derived_eventID now offsets e r hr]
    rw [h1, h2, List.nil_append]
  · rw [queueReminders, List.filter_append]
    rw [removeRemindersForEvent, List.filter_filter]
    have h1 : (pending.filter fun a => (!(a.EventID == e.ID)) && !(a.EventID == e.ID))
        = pending.filter fun a => !(a.EventID == e.ID) := by
      congr 1
      funext a
      cases h : (a.EventID == e.ID) <;> simp [h]
    have h2 : (derivedReminders now offsets e).filter (fun r => !(r.EventID == e.ID)) = [] := by
      apply List.filter_eq_nil_iff.mpr
      intro r hr
      simp [derived_eventID now offsets e r hr]
    rw [h1, h2, List.append_nil]

/-- C6: deriving a reminder set enqueues, for each offset, the non-immediate
reminder at `start - offset` exactly when that instant is strictly in the
future, exactly one `Now = true` reminder (with `RemindAt = start`, as
`immediateReminder` fixes) exactly when the start is strictly in the
future, and nothing else. -/
theorem c6_derive_rule (now : Int) (offsets : List Int) (e : GuildScheduledEvent) :
    (∀ o ∈ offsets,
      (offsetReminder e o ∈ derivedReminders now offsets e ↔ now < e.ScheduledStartTime - o))
    ∧ ((derivedReminders now offsets e).countP (fun r => r.Now)
        = if now < e.ScheduledStartTime then 1 else 0)
    ∧ (∀ r ∈ derivedReminders now offsets e, r.Now = true → r = immediateReminder e)
    ∧ (∀ r ∈ derivedReminders now offsets e, r.Now = false →
        ∃ o ∈ offsets, r = offsetReminder e o ∧ now < e.ScheduledStartTime - o) := by
  refine ⟨?_, ?_, ?_, ?_⟩
  · intro o ho
    constructor
    · intro hmem
      simp only [derivedReminders, List.mem_append, List.mem_filterMap] at hmem
      rcases hmem with ⟨o', _, ho'⟩ | hmem
      · split at ho'
        · rename_i hcond
          have : e.ScheduledStartTime - o' = e.ScheduledStartTime - o := by
            have := congrArg Reminder.RemindAt (Option.some.inj ho')
            simpa [offsetReminder] using this
          omega
        · cases ho'
      · split at hmem
        · simp at hmem
          have := congrArg Reminder.Now hmem
          simp [offsetReminder, immediateReminder] at this
        · simp at hmem
    · intro hcond
      simp only [derivedReminders, List.mem_append, List.mem_filterMap]
      left
      exact ⟨o, ho, by rw [if_pos hcond]⟩
  · rw [derivedReminders, List.countP_append]
    have h1 : (offsets.filterMap (fun offset =>
        if now < e.ScheduledStartTime - offset then some (offsetReminder e offset)
        else none)).countP (fun r => r.Now) = 0 := by
      apply List.countP_eq_zero.mpr
      intro r hr
      simp only [List.mem_filterMap] at hr
      obtain ⟨o, _, ho⟩ := hr
      split at ho
      · cases ho; simp [offsetReminder]
      · cases ho
    rw [h1, Nat.zero_add]
    split
    · simp [immediateReminder]
    · simp
  · intro r hr hnow
    simp only [derivedReminders, List.mem_append, List.mem_filterMap] at hr
    rcases hr with ⟨o, _, ho⟩ | hr
    · split at ho
      · cases ho; simp [offsetReminder] at hnow
      · cases ho
    · split at hr
      · simpa using hr
      · simp at hr
  · intro r hr hnow
    simp only [derivedReminders, List.mem_append, List.mem_filterMap] at hr
    rcases hr with ⟨o, ho, hval⟩ | hr
    · split at hval
      · rename_i hcond
        exact ⟨o, ho, (Option.some.inj hval).symm, hcond⟩
      · cases hval
    · split at hr
      · simp at hr
        subst hr
        simp [immediateReminder] at hnow
      · simp at hr

/-- Witness for C6: offset 10 before a start at 100 is enqueued at instant 0. -/
theorem c6_derive_rule_witness :
    offsetReminder sampleEvent 10 ∈ derivedReminders 0 [10] sampleEvent :=
  ((c6_derive_rule 0 [10] sampleEvent).1 10 (by decide)).mpr (by decide)

/-- At most one reminder per `(EventID, RemindAt)` pair (the uniqueness
invariant of the spec data model). -/
def uniqueKeys (s : Store) : Prop :=
  (s.map (fun r => (r.EventID, r.RemindAt))).Nodup

instance (s : Store) : Decidable (uniqueKeys s) := by
  unfold uniqueKeys
  infer_instance

/-- Store states reachable from the empty store by the operations of
`discord.go`: scheduler drain ticks (`reminderWorker`), reschedule updates
(`updateRemindersForEvent`: purge then re-derive) and event
creations/startup sync (`createRemindersForEvent`/`syncExistingEvents`,
which queue without purging). -/
inductive Reaches (offsets : List Int) : Store → Prop where
  | init : Reaches offsets []
  | drain (now : Int) {t : Store} : Reaches offsets t →
      Reaches offsets (drainDue now t).2
  | update (now : Int) (e : GuildScheduledEvent) {t : Store} : Reaches offsets t →
      Reaches offsets (queueReminders now offsets e (removeRemindersForEvent e.ID t))
  | create (now : Int) (e : GuildScheduledEvent) {t : Store} : Reaches offsets t →
      Reaches offsets (queueReminders now offsets e t)

/-- Like `Reaches`, but a creation/startup derivation only occurs for an
event that has no reminders in the store yet (one creation per event,
as the Discord gateway delivers). -/
inductive ReachesFresh (offsets : List Int) : Store → Prop where
  | init : ReachesFresh offsets []
  | drain (now : Int) {t : Store} : ReachesFresh offsets t →
      ReachesFresh offsets (drainDue now t).2
  | update (now : Int) (e : GuildScheduledEvent) {t : Store} : ReachesFresh offsets t →
      ReachesFresh offsets (queueReminders now offsets e (removeRemindersForEvent e.ID t))
  | create (now : Int) (e : GuildScheduledEvent) {t : Store} : ReachesFresh offsets t →
      (∀ r ∈ t, r.EventID ≠ e.ID) →
      ReachesFresh offsets (queueReminders now offsets e t)

/-- Counterexample for C3: with the offset configuration `[0]` (explicitly
allowed by the claim), a single event creation from the empty store yields
TWO reminders with the same `(EventID, RemindAt)` pair — the offset-0 one
and the immediate one. -/
theorem c3_cex :
    Reaches [0] (queueReminders 0 [0] sampleEvent [])
    ∧ ¬ uniqueKeys (queueReminders 0 [0] sampleEvent []) :=
  ⟨Reaches.create 0 sampleEvent Reaches.init, by decide⟩

lemma uniqueKeys_sublist {s t : Store} (hsub : s.Sublist t) (ht : uniqueKeys t) :
    uniqueKeys s :=
  List.Nodup.sublist (hsub.map _) ht

lemma filterMap_ite {α β : Type} (p : α → Prop) [DecidablePred p] (f : α → β)
    (l : List α) :
    l.filterMap (fun a => if p a then some (f a) else none)
      = (l.filter (fun a => decide (p a))).map f := by
  induction l with
  | nil => rfl
  | cons x xs ih =>
    by_cases h : p x
    · simp [List.filterMap_cons, List.filter_cons, h, ih]
    · simp [List.filterMap_cons, List.filter_cons, h, ih]

lemma derivedReminders_eq (now : Int) (offsets : List Int) (e : GuildScheduledEvent) :
    derivedReminders now offsets e
      = (offsets.filter (fun o => decide (now < e.ScheduledStartTime - o))).map
          (offsetReminder e)
        ++ (if now < e.ScheduledStartTime then [immediateReminder e] else []) := by
  rw [derivedReminders, filterMap_ite]

lemma uniqueKeys_queue (now : Int) (offsets : List Int) (e : GuildScheduledEvent)
    (t : Store) (hd : offsets.Nodup) (hz : (0 : Int) ∉ offsets)
    (ht : uniqueKeys t) (hfresh : ∀ r ∈ t, r.EventID ≠ e.ID) :
    uniqueKeys (queueReminders now offsets e t) := by
  rw [queueReminders, uniqueKeys, List.map_append, List.nodup_append]
  refine ⟨ht, ?_, ?_⟩
  · -- the keys of the derived reminders are pairwise distinct
    rw [derivedReminders_eq, List.map_append, List.nodup_append, List.map_map]
    refine ⟨?_, ?_, ?_⟩
    · apply List.Nodup.map_on ?_ (hd.filter _)
      intro o ho o' ho' hoo
      simp only [Function.comp, offsetReminder, Prod.mk.injEq] at hoo
      omega
    · split
      · simp
      · simp
    · intro k hk hk'
      simp only [List.mem_map, List.mem_filter] at hk
      obtain ⟨o, ⟨ho, hcond⟩, hko⟩ := hk
      subst hko
      split at hk'
      · simp only [List.map_cons, List.map_nil, List.mem_singleton, Function.comp,
          offsetReminder, immediateReminder, Prod.mk.injEq] at hk'
        apply hz
        have : o = 0 := by omega
        rw [← this]
        exact ho
      · simp at hk'
  · -- keys from the old store never collide with keys of the derived ones
    intro k hk hk'
    simp only [List.mem_map] at hk hk'
    obtain ⟨r, hr, hkr⟩ := hk
    obtain ⟨r', hr', hkr'⟩ := hk'
    have h1 : r.EventID ≠ e.ID := hfresh r hr
    have h2 : r'.EventID = e.ID := derived_eventID now offsets e r' hr'
    apply h1
    rw [← hkr'] at hkr
    rw [Prod.mk.injEq] at hkr
    rw [hkr.1, h2]

/-- C3 (amended): in every store state reachable from the empty store by
drain ticks, reschedule updates (purge then re-derive) and first-time
derivations (creation/startup sync of an event with no reminders in the
store yet), PROVIDED the offset list is duplicate-free and contains no
zero offset, at most one reminder per `(EventID, RemindAt)` pair exists. -/
theorem c3_uniqueness_amended (offsets : List Int) (t : Store)
    (hd : offsets.Nodup) (hz : (0 : Int) ∉ offsets)
    (h : ReachesFresh offsets t) : uniqueKeys t := by
  induction h with
  | init => simp [uniqueKeys]
  | drain now _ ih =>
    exact uniqueKeys_sublist (List.filter_sublist _) ih
  | update now e _ ih =>
    apply uniqueKeys_queue now offsets e _ hd hz
    · exact uniqueKeys_sublist (List.filter_sublist _) ih
    · intro r hr
      rw [removeRemindersForEvent, List.mem_filter] at hr
      simpa using hr.2
  | create now e _ hfresh ih =>
    exact uniqueKeys_queue now offsets e _ hd hz ih hfresh

/-- Witness for C3 (amended): one fresh derivation with offsets `[60]`. -/
theorem c3_uniqueness_amended_witness :
    uniqueKeys (queueReminders 0 [60] sampleEvent []) :=
  c3_uniqueness_amended [60] _ (by decide) (by decide)
    (ReachesFresh.create 0 sampleEvent ReachesFresh.init (by simp))


/-! ## StatusPublisher and pointer persistence (`discord.go`) -/

/-- `pat` is a leading segment of `s` (helper for `containsStr`). -/
def leadsWith : List Char → List Char → Bool
  | [], _ => true
  | _ :: _, [] => false
  | c :: cs, d :: ds => c == d && leadsWith cs ds

/-- `pat` occurs contiguously inside `s` (helper for `containsStr`). -/
def hasSub : List Char → List Char → Bool
  | s, pat =>
    match s with
    | [] => pat.isEmpty
    | _ :: rest => leadsWith pat s || hasSub rest pat

/-- `strings.Contains` as used in `fetchExistingMessage` (only ever called
with the non-empty pattern `"Online players"`). -/
def containsStr (s pat : String) : Bool := hasSub s.data pat.data

/-- The fields of `discordgo.Message` used by `fetchExistingMessage`;
`Author` can be nil, hence the `Option`. -/
structure Message where
  ID : String
  AuthorID : Option String
  Content : String
deriving DecidableEq, Repr

/-- The per-message test of `fetchExistingMessage`'s scan loop:
`m.Author != nil && m.Author.ID == bot.userID &&
strings.Contains(m.Content, "Online players")`. -/
def isStatusCandidate (userID : String) (m : Message) : Bool :=
  match m.AuthorID with
  | some a => a == userID && containsStr m.Content "Online players"
  | none => false

/-- `fetchExistingMessage` from `discord.go`: with a known id the direct
fetch's result is returned as-is (errors included); only with no known id
are the most recent channel messages scanned for the first match.
`fetchByID` models `session.ChannelMessage`, `recent` the result of
`session.ChannelMessages(channel, 100, ...)`. -/
def fetchExistingMessage (existingMessageId : String)
    (fetchByID : String → Except String Message)
    (recent : Except String (List Message))
    (userID : String) : Except String (Option Message) :=
  if 0 < existingMessageId.length then
    match fetchByID existingMessageId with
    | .error e => .error e
    | .ok m => .ok (some m)
  else
    match recent with
    | .error e => .error e
    | .ok msgs => .ok (msgs.find? (isStatusCandidate userID))

/-- What `updatePlayerList` does after resolving the existing message:
return the fetch error, edit the found message in place, or create a new
message. -/
inductive PublishAction where
  | fail (e : String)
  | editMessage (id : String)
  | createMessage
deriving DecidableEq, Repr

/-- The resolution step of `updatePlayerList` (lines 269-298): a
`fetchExistingMessage` error is returned to the caller; a found message is
edited; otherwise a new message is sent. -/
def resolvePublishAction (existingMessageId : String)
    (fetchByID : String → Except String Message)
    (recent : Except String (List Message))
    (userID : String) : PublishAction :=
  match fetchExistingMessage existingMessageId fetchByID recent userID with
  | .error e => .fail e
  | .ok (some m) => .editMessage m.ID
  | .ok none => .createMessage

/-- `find?` returns the first element satisfying the predicate. -/
lemma find?_first {α : Type} (p : α → Bool) (l : List α) (m : α) (r : List α)
    (hm : p m = true) (hl : ∀ x ∈ l, p x = false) :
    (l ++ m :: r).find? p = some m := by
  induction l with
  | nil => simp [List.find?_cons, hm]
  | cons x xs ih =>
    have hx : p x = false := hl x (by simp)
    simp only [List.cons_append, List.find?_cons, hx]
    exact ih (fun y hy => hl y (by simp [hy]))

/-- A concrete status message authored by the bot, for witnesses and
counterexamples. -/
def staleStatusMessage : Message :=
  { ID := "m42", AuthorID := some "bot1", Content := "# Online players" }

/-- Counterexample for C4: with a known identifier whose fetch fails, the
fetch failure is returned to the caller even though a matching status
message sits in the recent channel messages — no fallback scan happens. -/
theorem c4_cex :
    isStatusCandidate "bot1" staleStatusMessage = true
    ∧ fetchExistingMessage "m7" (fun _ => .error "fetch failed")
        (.ok [staleStatusMessage]) "bot1" = .error "fetch failed"
    ∧ resolvePublishAction "m7" (fun _ => .error "fetch failed")
        (.ok [staleStatusMessage]) "bot1" = .fail "fetch failed" :=
  ⟨by decide, rfl, rfl⟩

/-- C4 (amended): when an identifier is known the publisher fetches that
message directly and returns the result as-is — a fetch failure propagates
to the caller; only when no identifier is known does it search the most
recent channel messages for one authored by this system matching the fixed
title marker, first match wins, and edits it. -/
theorem c4_amended (mid : String) (fetchByID : String → Except String Message)
    (recent : Except String (List Message)) (userID : String) :
    (0 < mid.length →
      (∀ e, fetchByID mid = .error e →
        fetchExistingMessage mid fetchByID recent userID = .error e
        ∧ resolvePublishAction mid fetchByID recent userID = .fail e)
      ∧ (∀ m, fetchByID mid = .ok m →
        fetchExistingMessage mid fetchByID recent userID = .ok (some m)))
    ∧ (¬ 0 < mid.length → ∀ msgs, recent = .ok msgs →
        ((∀ m ∈ msgs, isStatusCandidate userID m = false) →
          fetchExistingMessage mid fetchByID recent userID = .ok none)
        ∧ (∀ l m r, msgs = l ++ m :: r → isStatusCandidate userID m = true →
            (∀ x ∈ l, isStatusCandidate userID x = false) →
            fetchExistingMessage mid fetchByID recent userID = .ok (some m)
            ∧ resolvePublishAction mid fetchByID recent userID = .editMessage m.ID)) := by
  constructor
  · intro hlen
    constructor
    · intro e he
      simp [fetchExistingMessage, resolvePublishAction, hlen, he]
    · intro m hm
      simp [fetchExistingMessage, hlen, hm]
  · intro hlen msgs hmsgs
    constructor
    · intro hall
      simp only [fetchExistingMessage, if_neg hlen, hmsgs]
      rw [List.find?_eq_none.mpr]
      intro x hx
      simp [hall x hx]
    · intro l m r hsplit hm hl
      have hfind : msgs.find? (isStatusCandidate userID) = some m := by
        rw [hsplit]
        exact find?_first (isStatusCandidate userID) l m r hm hl
      constructor
      · simp [fetchExistingMessage, if_neg hlen, hmsgs, hfind]
      · simp [resolvePublishAction, fetchExistingMessage, if_neg hlen, hmsgs, hfind]

/-- Witness for C4 (amended): empty id, scan finds the bot's message. -/
theorem c4_amended_witness :
    fetchExistingMessage "" (fun _ => .error "unused") (.ok [staleStatusMessage]) "bot1"
      = .ok (some staleStatusMessage) :=
  (((c4_amended "" (fun _ => .error "unused") (.ok [staleStatusMessage]) "bot1").2
      (by decide) [staleStatusMessage] rfl).2 [] staleStatusMessage [] rfl (by decide)
      (by simp)).1

/-- The outcome of `os.ReadFile` in `readMessageId`: success, the
`os.ErrNotExist` error, or any other error. -/
inductive FileReadResult where
  | ok (content : String)
  | errNotExist
  | errOther (e : String)
deriving DecidableEq, Repr

/-- `readMessageId` from `discord.go`: only a not-exist error is mapped to
the empty string without error; any other error is returned. -/
def readMessageId (res : FileReadResult) : Except String String :=
  match res with
  | .ok b => .ok b
  | .errNotExist => .ok ""
  | .errOther e => .error e

/-- The startup read in `Start` (lines 59-75): a `readMessageId` error is
logged and returned — `Start` aborts; otherwise `existingMessageId` is the
read value when non-empty. -/
def startExistingMessageId (res : FileReadResult) : Except String String :=
  match readMessageId res with
  | .error e => .error e
  | .ok i => .ok (if 0 < i.length then i else "")

/-- Counterexample for C5: a read failure other than not-exist (e.g. a
permission error) makes startup return the error instead of proceeding
with an empty identifier. -/
theorem c5_cex :
    startExistingMessageId (.errOther "permission denied")
      = .error "permission denied"
    ∧ startExistingMessageId (.errOther "permission denied") ≠ .ok "" :=
  ⟨rfl, by intro h; cases h⟩

/-- C5 (amended): only absence of the pointer file is treated as "no prior
message" (empty identifier) with startup proceeding; any other read
failure is returned by `Start` and aborts startup. -/
theorem c5_read_amended :
    (readMessageId .errNotExist = .ok ""
      ∧ startExistingMessageId .errNotExist = .ok "")
    ∧ (∀ e, readMessageId (.errOther e) = .error e
      ∧ startExistingMessageId (.errOther e) = .error e)
    ∧ (∀ c, startExistingMessageId (.ok c) = .ok c) := by
  refine ⟨⟨rfl, rfl⟩, fun e => ⟨rfl, rfl⟩, fun c => ?_⟩
  simp only [startExistingMessageId, readMessageId]
  split
  · rfl
  · rename_i h
    have hc : c.length = 0 := by omega
    cases c with
    | mk data =>
      cases data with
      | nil => rfl
      | cons a as => simp [String.length] at hc

/-- `model.ServerInfo`: one server's snapshot. -/
structure ServerInfo where
  Name : String
  Players : List String
  Reachable : Bool
deriving DecidableEq, Repr

/-- One embed block of the status payload as assembled in
`updatePlayerList`: title, description, color. -/
structure StatusEmbed where
  Title : String
  Description : String
  Color : Nat
deriving DecidableEq, Repr

/-- The per-server block of `updatePlayerList` (lines 241-267): bulleted
player list or the no-players marker, green by default; an unreachable
server overrides both the color (red) and the description. -/
def renderServerEmbed (serverName : String) (serverInfo : ServerInfo) : StatusEmbed :=
  let playerlist0 := "No players online"
  let color0 := 0x57F287
  let playerlist1 :=
    if 0 < serverInfo.Players.length then
      String.intercalate "\n" (serverInfo.Players.map (fun player => "- " ++ player))
    else playerlist0
  let color := if !serverInfo.Reachable then 0xc1121f else color0
  let playerlist := if !serverInfo.Reachable then "Server unreachable" else playerlist1
  { Title := serverName, Description := playerlist, Color := color }

/-- C10: for an unreachable server the block shows the unreachable marker
with the distinct red color, whatever the player list holds — the single
description field equals the marker, so neither the listed players nor the
no-players marker are rendered, for every possible player list. -/
theorem c10_unreachable_precedence (serverName : String) (serverInfo : ServerInfo)
    (h : serverInfo.Reachable = false) :
    (renderServerEmbed serverName serverInfo).Description = "Server unreachable"
    ∧ (renderServerEmbed serverName serverInfo).Color = 0xc1121f
    ∧ (renderServerEmbed serverName serverInfo).Description ≠ "No players online"
    ∧ (∀ players, (renderServerEmbed serverName
        { serverInfo with Players := players }).Description = "Server unreachable") := by
  refine ⟨?_, ?_, ?_, ?_⟩
  · simp [renderServerEmbed, h]
  · simp [renderServerEmbed, h]
  · simp [renderServerEmbed, h]
  · intro players
    simp [renderServerEmbed, h]

/-- Witness for C10: an unreachable server with a non-empty player list. -/
theorem c10_unreachable_precedence_witness :
    (renderServerEmbed "Main"
        { Name := "Main", Players := ["p1", "p2"], Reachable := false }).Description
      = "Server unreachable" :=
  (c10_unreachable_precedence "Main"
    { Name := "Main", Players := ["p1", "p2"], Reachable := false } rfl).1


/-! ## PresenceDiffer (`Start`, lines 136-183 of `discord.go`) -/

/-- Go map assignment `idx[player] = server`: overwrite any previous
binding for `player`. -/
def insertPS (m : List (String × String)) (player server : String) :
    List (String × String) :=
  (player, server) :: m.filter (fun q => !(q.1 == player))

/-- Go map lookup `idx[player]` (with its ok-flag expressed as `Option`). -/
def lookupPS (m : List (String × String)) (player : String) : Option String :=
  (m.find? (fun q => q.1 == player)).map (fun q => q.2)

/-- A snapshot generation: the entries of the `map[string]*model.ServerInfo`
in iteration order.  Modelled as an association list because the Go map's
iteration order is arbitrary — order independence is exactly claim C8. -/
abbrev Generation := List (String × ServerInfo)

/-- Building the player→server index:
`for server, info := range gen: for _, player := range info.Players:
idx[player] = server`. -/
def buildIndex (gen : Generation) : List (String × String) :=
  gen.foldl (fun acc sv =>
    sv.2.Players.foldl (fun acc2 player => insertPS acc2 player sv.1) acc) []

/-- The join/leave/move notifications emitted by the presence loop. -/
inductive PresenceEvent where
  | join (player server : String)
  | leave (player server : String)
  | move (player oldServer newServer : String)
deriving DecidableEq, Repr

/-- The body of the "Detect joins + moves" loop for one current-index entry
`q = (player, newServer)`: absent from the previous index → join; moved
server → move; otherwise nothing. -/
def joinMoveEvent (prevIdx : List (String × String)) (q : String × String) :
    Option PresenceEvent :=
  match lookupPS prevIdx q.1 with
  | none => some (.join q.1 q.2)
  | some oldServer =>
    if oldServer ≠ q.2 then some (.move q.1 oldServer q.2) else none

/-- The body of the "Detect leaves" loop for one previous-index entry:
a player no longer in the current index yields a leave. -/
def leaveEvent (currIdx : List (String × String)) (q : String × String) :
    Option PresenceEvent :=
  match lookupPS currIdx q.1 with
  | none => some (.leave q.1 q.2)
  | some _ => none

/-- The full presence diff of one cycle: the join/move loop over the
current index followed by the leave loop over the previous index. -/
def diffEvents (prevIdx currIdx : List (String × String)) : List PresenceEvent :=
  currIdx.filterMap (joinMoveEvent prevIdx)
  ++ prevIdx.filterMap (leaveEvent currIdx)

/-- Player `p` appears in server `s`'s player list in generation `g`. -/
def listedOn (g : Generation) (p s : String) : Prop :=
  ∃ info, (s, info) ∈ g ∧ p ∈ info.Players

/-- Each player is listed on at most one server of the generation. -/
def AtMostOneServer (g : Generation) : Prop :=
  ∀ p s t, listedOn g p s → listedOn g p t → s = t

lemma listedOn_cons (x : String × ServerInfo) (g : Generation) (p s : String) :
    listedOn (x :: g) p s ↔ (s = x.1 ∧ p ∈ x.2.Players) ∨ listedOn g p s := by
  unfold listedOn
  constructor
  · rintro ⟨info, hmem, hp⟩
    rcases List.mem_cons.mp hmem with h | h
    · left
      have h1 : s = x.1 := congrArg Prod.fst h
      have h2 : info = x.2 := congrArg Prod.snd h
      exact ⟨h1, h2 ▸ hp⟩
    · right; exact ⟨info, h, hp⟩
  · rintro (⟨hs, hp⟩ | ⟨info, hmem, hp⟩)
    · exact ⟨x.2, by rw [hs]; exact List.mem_cons_self _ _, hp⟩
    · exact ⟨info, List.mem_cons_of_mem _ hmem, hp⟩

lemma lookupPS_insertPS (m : List (String × String)) (p s q : String) :
    lookupPS (insertPS m p s) q = if q = p then some s else lookupPS m q := by
  unfold insertPS lookupPS
  by_cases hqp : q = p
  · subst hqp
    rw [List.find?_cons_of_pos _ (by simp), if_pos rfl]
    rfl
  · rw [List.find?_cons_of_neg _ (by simp; exact fun h => hqp h.symm), if_neg hqp]
    congr 1
    induction m with
    | nil => rfl
    | cons x xs ih =>
      by_cases hx : x.1 = p
      · rw [List.filter_cons_of_neg (by simp [hx]),
          List.find?_cons_of_neg _ (by
            simp [hx]
            exact fun h => hqp h.symm), ih]
      · rw [List.filter_cons_of_pos (by simp [hx])]
        by_cases hxq : x.1 = q
        · rw [List.find?_cons_of_pos _ (by simp [hxq]),
            List.find?_cons_of_pos _ (by simp [hxq])]
        · rw [List.find?_cons_of_neg _ (by simp [hxq]),
            List.find?_cons_of_neg _ (by simp [hxq]), ih]

lemma lookupPS_foldPlayers (players : List String) (srv : String)
    (acc : List (String × String)) (q : String) :
    lookupPS (players.foldl (fun a pl => insertPS a pl srv) acc) q
      = if q ∈ players then some srv else lookupPS acc q := by
  induction players generalizing acc with
  | nil => simp
  | cons x xs ih =>
    rw [List.foldl_cons, ih]
    by_cases hq : q ∈ xs
    · rw [if_pos hq, if_pos (by simp [hq])]
    · rw [if_neg hq, lookupPS_insertPS]
      by_cases hqx : q = x
      · rw [if_pos hqx, if_pos (by simp [hqx])]
      · rw [if_neg hqx, if_neg (by simp [hqx, hq])]

lemma lookupPS_foldGen_none (gen : Generation) (acc : List (String × String))
    (q : String) :
    lookupPS (gen.foldl (fun a sv =>
        sv.2.Players.foldl (fun a2 player => insertPS a2 player sv.1) a) acc) q = none
      ↔ lookupPS acc q = none ∧ ∀ s, ¬ listedOn gen q s := by
  induction gen generalizing acc with
  | nil =>
    simp [listedOn]
  | cons x xs ih =>
    rw [List.foldl_cons, ih]
    constructor
    · rintro ⟨hin, hxs⟩
      rw [lookupPS_foldPlayers] at hin
      by_cases hq : q ∈ x.2.Players
      · rw [if_pos hq] at hin
        cases hin
      · rw [if_neg hq] at hin
        refine ⟨hin, fun s hs => ?_⟩
        rcases (listedOn_cons x xs q s).mp hs with ⟨_, hp⟩ | h
        · exact hq hp
        · exact hxs s h
    · rintro ⟨hacc, hall⟩
      constructor
      · rw [lookupPS_foldPlayers]
        by_cases hq : q ∈ x.2.Players
        · exact absurd ((listedOn_cons x xs q x.1).mpr (Or.inl ⟨rfl, hq⟩)) (hall x.1)
        · rw [if_neg hq]
          exact hacc
      · intro s hs
        exact hall s ((listedOn_cons x xs q s).mpr (Or.inr hs))

lemma lookupPS_foldGen_some (gen : Generation) (acc : List (String × String))
    (q s : String) :
    lookupPS (gen.foldl (fun a sv =>
        sv.2.Players.foldl (fun a2 player => insertPS a2 player sv.1) a) acc) q = some s
      → listedOn gen q s ∨ lookupPS acc q = some s := by
  induction gen generalizing acc with
  | nil =>
    intro h
    exact Or.inr h
  | cons x xs ih =>
    rw [List.foldl_cons]
    intro h
    rcases ih _ h with hlisted | hacc
    · exact Or.inl ((listedOn_cons x xs q s).mpr (Or.inr hlisted))
    · rw [lookupPS_foldPlayers] at hacc
      by_cases hq : q ∈ x.2.Players
      · rw [if_pos hq] at hacc
        injection hacc with hs
        subst hs
        exact Or.inl ((listedOn_cons x xs q x.1).mpr (Or.inl ⟨rfl, hq⟩))
      · rw [if_neg hq] at hacc
        exact Or.inr hacc

lemma lookupPS_buildIndex_none (gen : Generation) (q : String) :
    lookupPS (buildIndex gen) q = none ↔ ∀ s, ¬ listedOn gen q s := by
  rw [buildIndex, lookupPS_foldGen_none]
  simp [lookupPS]

lemma lookupPS_buildIndex_some (gen : Generation) (q s : String)
    (h : lookupPS (buildIndex gen) q = some s) : listedOn gen q s := by
  rcases lookupPS_foldGen_some gen [] q s h with hl | habs
  · exact hl
  · simp [lookupPS] at habs

lemma lookupPS_buildIndex_unique (gen : Generation) (q s : String)
    (hs : listedOn gen q s) (huniq : ∀ t, listedOn gen q t → t = s) :
    lookupPS (buildIndex gen) q = some s := by
  cases h : lookupPS (buildIndex gen) q with
  | none =>
    exact absurd hs ((lookupPS_buildIndex_none gen q).mp h s)
  | some t =>
    rw [huniq t (lookupPS_buildIndex_some gen q t h)]

/-- The index binds each player at most once (invariant of `insertPS`). -/
def NodupKeys (m : List (String × String)) : Prop :=
  (m.map Prod.fst).Nodup

lemma nodupKeys_insertPS (m : List (String × String)) (p s : String)
    (h : NodupKeys m) : NodupKeys (insertPS m p s) := by
  unfold NodupKeys insertPS
  rw [List.map_cons, List.nodup_cons]
  constructor
  · intro hp
    rcases List.mem_map.mp hp with ⟨e, he, hke⟩
    have := (List.mem_filter.mp he).2
    simp [hke] at this
  · exact List.Nodup.sublist ((List.filter_sublist m).map _) h

lemma nodupKeys_foldPlayers (players : List String) (srv : String)
    (acc : List (String × String)) (h : NodupKeys acc) :
    NodupKeys (players.foldl (fun a pl => insertPS a pl srv) acc) := by
  induction players generalizing acc with
  | nil => exact h
  | cons x xs ih =>
    rw [List.foldl_cons]
    exact ih _ (nodupKeys_insertPS acc x srv h)

lemma nodupKeys_buildIndex (gen : Generation) : NodupKeys (buildIndex gen) := by
  rw [buildIndex]
  have : ∀ (g : Generation) (acc : List (String × String)), NodupKeys acc →
      NodupKeys (g.foldl (fun a sv =>
        sv.2.Players.foldl (fun a2 player => insertPS a2 player sv.1) a) acc) := by
    intro g
    induction g with
    | nil => exact fun acc h => h
    | cons x xs ih =>
      intro acc h
      rw [List.foldl_cons]
      exact ih _ (nodupKeys_foldPlayers x.2.Players x.1 acc h)
  exact this gen [] (by simp [NodupKeys])

lemma mem_iff_lookupPS (m : List (String × String)) (h : NodupKeys m)
    (p s : String) : (p, s) ∈ m ↔ lookupPS m p = some s := by
  induction m with
  | nil => simp [lookupPS]
  | cons x xs ih =>
    have hx : NodupKeys xs := by
      unfold NodupKeys at h ⊢
      rw [List.map_cons, List.nodup_cons] at h
      exact h.2
    have hkey : x.1 ∉ xs.map Prod.fst := by
      unfold NodupKeys at h
      rw [List.map_cons, List.nodup_cons] at h
      exact h.1
    constructor
    · intro hmem
      rcases List.mem_cons.mp hmem with heq | hmem
    -- first element
      · rw [← heq]
        unfold lookupPS
        rw [List.find?_cons_of_pos _ (by simp)]
        rfl
      · have hne : x.1 ≠ p := by
          intro hk
          apply hkey
          rw [hk]
          exact List.mem_map.mpr ⟨(p, s), hmem, rfl⟩
        unfold lookupPS
        rw [List.find?_cons_of_neg _ (by simp [hne])]
        exact (ih hx).mp hmem
    · intro hl
      by_cases hne : x.1 = p
      · unfold lookupPS at hl
        rw [List.find?_cons_of_pos _ (by simp [hne])] at hl
        simp at hl
        have hxps : x = (p, s) := Prod.ext hne hl
        rw [show (p, s) = x from hxps.symm]
        exact List.mem_cons_self x xs
      · unfold lookupPS at hl
        rw [List.find?_cons_of_neg _ (by simp [hne])] at hl
        exact List.mem_cons_of_mem _ ((ih hx).mpr hl)

lemma leaveEvent_eq_some (currIdx : List (String × String)) (q : String × String)
    (ev : PresenceEvent) :
    leaveEvent currIdx q = some ev
      ↔ lookupPS currIdx q.1 = none ∧ ev = .leave q.1 q.2 := by
  unfold leaveEvent
  split
  · rename_i h
    simp [h]
    exact eq_comm
  · rename_i o h
    simp [h]

lemma joinMoveEvent_eq_join (prevIdx : List (String × String)) (q : String × String)
    (p s : String) :
    joinMoveEvent prevIdx q = some (.join p s)
      ↔ lookupPS prevIdx q.1 = none ∧ q.1 = p ∧ q.2 = s := by
  unfold joinMoveEvent
  split
  · rename_i h
    simp [h]
  · rename_i o h
    simp [h]

lemma joinMoveEvent_eq_move (prevIdx : List (String × String)) (q : String × String)
    (p a b : String) :
    joinMoveEvent prevIdx q = some (.move p a b)
      ↔ lookupPS prevIdx q.1 = some a ∧ q.1 = p ∧ q.2 = b ∧ a ≠ b := by
  unfold joinMoveEvent
  split
  · rename_i h
    simp [h]
  · rename_i o h
    simp [h]
    constructor
    · rintro ⟨h1, h2, h3, h4⟩
      exact ⟨h3, h2, h4, fun hab => h1 (h3.trans (hab.trans h4.symm))⟩
    · rintro ⟨h1, h2, h3, h4⟩
      exact ⟨fun hoq => h4 (h1.symm.trans (hoq.trans h3)), h2, h1, h3⟩

lemma joinMoveEvent_ne_leave (prevIdx : List (String × String)) (q : String × String)
    (p s : String) : joinMoveEvent prevIdx q ≠ some (.leave p s) := by
  unfold joinMoveEvent
  split
  · simp
  · split
    · simp
    · simp

lemma leaveEvent_ne_join (currIdx : List (String × String)) (q : String × String)
    (p s : String) : leaveEvent currIdx q ≠ some (.join p s) := by
  unfold leaveEvent
  split
  · simp
  · simp

lemma leaveEvent_ne_move (currIdx : List (String × String)) (q : String × String)
    (p a b : String) : leaveEvent currIdx q ≠ some (.move p a b) := by
  unfold leaveEvent
  split
  · simp
  · simp

lemma join_mem_diffEvents (prevIdx currIdx : List (String × String))
    (hc : NodupKeys currIdx) (p s : String) :
    PresenceEvent.join p s ∈ diffEvents prevIdx currIdx
      ↔ lookupPS currIdx p = some s ∧ lookupPS prevIdx p = none := by
  unfold diffEvents
  rw [List.mem_append]
  constructor
  · rintro (h | h)
    · rcases List.mem_filterMap.mp h with ⟨q, hq, hfq⟩
      rcases (joinMoveEvent_eq_join prevIdx q p s).mp hfq with ⟨hl, h1, h2⟩
      have hqps : q = (p, s) := Prod.ext h1 h2
      rw [hqps] at hq
      rw [h1] at hl
      exact ⟨(mem_iff_lookupPS currIdx hc p s).mp hq, hl⟩
    · rcases List.mem_filterMap.mp h with ⟨q, hq, hfq⟩
      exact absurd hfq (leaveEvent_ne_join currIdx q p s)
  · rintro ⟨hcur, hprev⟩
    left
    apply List.mem_filterMap.mpr
    exact ⟨(p, s), (mem_iff_lookupPS currIdx hc p s).mpr hcur,
      (joinMoveEvent_eq_join prevIdx (p, s) p s).mpr ⟨hprev, rfl, rfl⟩⟩

lemma move_mem_diffEvents (prevIdx currIdx : List (String × String))
    (hc : NodupKeys currIdx) (p a b : String) :
    PresenceEvent.move p a b ∈ diffEvents prevIdx currIdx
      ↔ lookupPS prevIdx p = some a ∧ lookupPS currIdx p = some b ∧ a ≠ b := by
  unfold diffEvents
  rw [List.mem_append]
  constructor
  · rintro (h | h)
    · rcases List.mem_filterMap.mp h with ⟨q, hq, hfq⟩
      rcases (joinMoveEvent_eq_move prevIdx q p a b).mp hfq with ⟨hl, h1, h2, h3⟩
      have hqpb : q = (p, b) := Prod.ext h1 h2
      rw [hqpb] at hq
      rw [h1] at hl
      exact ⟨hl, (mem_iff_lookupPS currIdx hc p b).mp hq, h3⟩
    · rcases List.mem_filterMap.mp h with ⟨q, hq, hfq⟩
      exact absurd hfq (leaveEvent_ne_move currIdx q p a b)
  · rintro ⟨hprev, hcur, hab⟩
    left
    apply List.mem_filterMap.mpr
    exact ⟨(p, b), (mem_iff_lookupPS currIdx hc p b).mpr hcur,
      (joinMoveEvent_eq_move prevIdx (p, b) p a b).mpr ⟨hprev, rfl, rfl, hab⟩⟩

lemma leaveEvent_eq_leave (currIdx : List (String × String)) (q : String × String)
    (p s : String) :
    leaveEvent currIdx q = some (.leave p s)
      ↔ lookupPS currIdx q.1 = none ∧ q.1 = p ∧ q.2 = s := by
  unfold leaveEvent
  split
  · rename_i h
    simp [h]
  · rename_i o h
    simp [h]

lemma leave_mem_diffEvents (prevIdx currIdx : List (String × String))
    (hp : NodupKeys prevIdx) (p s : String) :
    PresenceEvent.leave p s ∈ diffEvents prevIdx currIdx
      ↔ lookupPS prevIdx p = some s ∧ lookupPS currIdx p = none := by
  unfold diffEvents
  rw [List.mem_append]
  constructor
  · rintro (h | h)
    · rcases List.mem_filterMap.mp h with ⟨q, hq, hfq⟩
      exact absurd hfq (joinMoveEvent_ne_leave prevIdx q p s)
    · rcases List.mem_filterMap.mp h with ⟨q, hq, hfq⟩
      rcases (leaveEvent_eq_leave currIdx q p s).mp hfq with ⟨hl, h1, h2⟩
      have hqps : q = (p, s) := Prod.ext h1 h2
      rw [hqps] at hq
      rw [h1] at hl
      exact ⟨(mem_iff_lookupPS prevIdx hp p s).mp hq, hl⟩
  · rintro ⟨hprev, hcur⟩
    right
    apply List.mem_filterMap.mpr
    exact ⟨(p, s), (mem_iff_lookupPS prevIdx hp p s).mpr hprev,
      (leaveEvent_eq_leave currIdx (p, s) p s).mpr ⟨hcur, rfl, rfl⟩⟩

/-- Two servers both listing player `p` (current generation, order 1). -/
def c8Gen1 : Generation :=
  [("A", { Name := "A", Players := ["p"], Reachable := true }),
   ("B", { Name := "B", Players := ["p"], Reachable := true })]

/-- The same two servers in the opposite order. -/
def c8Gen2 : Generation :=
  [("B", { Name := "B", Players := ["p"], Reachable := true }),
   ("A", { Name := "A", Players := ["p"], Reachable := true })]

/-- Counterexample for C8: with a player listed on two servers, reversing
the server order of the current generation (same membership sets) changes
the emitted event set — `join p B` versus `join p A`. -/
theorem c8_cex :
    c8Gen2 = c8Gen1.reverse
    ∧ PresenceEvent.join "p" "B" ∈ diffEvents (buildIndex []) (buildIndex c8Gen1)
    ∧ PresenceEvent.join "p" "B" ∉ diffEvents (buildIndex []) (buildIndex c8Gen2) := by
  refine ⟨rfl, ?_, ?_⟩ <;> decide

lemma atMostOne_congr (g1 g2 : Generation)
    (heq : ∀ p s, listedOn g1 p s ↔ listedOn g2 p s)
    (h1 : AtMostOneServer g1) : AtMostOneServer g2 :=
  fun p s t hs ht => h1 p s t ((heq p s).mpr hs) ((heq p t).mpr ht)

lemma lookupPS_buildIndex_congr (g1 g2 : Generation)
    (heq : ∀ p s, listedOn g1 p s ↔ listedOn g2 p s)
    (h1 : AtMostOneServer g1) (q : String) :
    lookupPS (buildIndex g1) q = lookupPS (buildIndex g2) q := by
  cases h : lookupPS (buildIndex g1) q with
  | none =>
    symm
    rw [lookupPS_buildIndex_none] at h ⊢
    intro s hs
    exact h s ((heq q s).mpr hs)
  | some s =>
    symm
    have hl1 : listedOn g1 q s := lookupPS_buildIndex_some g1 q s h
    apply lookupPS_buildIndex_unique
    · exact (heq q s).mp hl1
    · intro t ht
      exact h1 q t s ((heq q t).mpr ht) hl1

/-- C8 (amended): the presence diff is order-independent provided each
player is listed on at most one server per generation: two runs on
reordered but membership-equal generations yield the same set of join,
leave and move events. -/
theorem c8_order_independence (prev1 prev2 curr1 curr2 : Generation)
    (hprevEq : ∀ p s, listedOn prev1 p s ↔ listedOn prev2 p s)
    (hcurrEq : ∀ p s, listedOn curr1 p s ↔ listedOn curr2 p s)
    (hprev1 : AtMostOneServer prev1) (hcurr1 : AtMostOneServer curr1) :
    ∀ ev, ev ∈ diffEvents (buildIndex prev1) (buildIndex curr1)
      ↔ ev ∈ diffEvents (buildIndex prev2) (buildIndex curr2) := by
  have hp : ∀ q, lookupPS (buildIndex prev1) q = lookupPS (buildIndex prev2) q :=
    lookupPS_buildIndex_congr prev1 prev2 hprevEq hprev1
  have hcu : ∀ q, lookupPS (buildIndex curr1) q = lookupPS (buildIndex curr2) q :=
    lookupPS_buildIndex_congr curr1 curr2 hcurrEq hcurr1
  intro ev
  cases ev with
  | join p s =>
    rw [join_mem_diffEvents _ _ (nodupKeys_buildIndex curr1),
      join_mem_diffEvents _ _ (nodupKeys_buildIndex curr2), hp, hcu]
  | leave p s =>
    rw [leave_mem_diffEvents _ _ (nodupKeys_buildIndex prev1),
      leave_mem_diffEvents _ _ (nodupKeys_buildIndex prev2), hp, hcu]
  | move p a b =>
    rw [move_mem_diffEvents _ _ (nodupKeys_buildIndex curr1),
      move_mem_diffEvents _ _ (nodupKeys_buildIndex curr2), hp, hcu]

/-- The player a presence event is about. -/
def eventPlayer : PresenceEvent → String
  | .join p _ => p
  | .leave p _ => p
  | .move p _ _ => p

lemma filterMap_eq_singleton {α β : Type} (h : α → Option β) (l : List α) (x : α)
    (b : β) (hl : l.Nodup) (hx : x ∈ l) (hhx : h x = some b)
    (hother : ∀ y ∈ l, y ≠ x → h y = none) :
    l.filterMap h = [b] := by
  induction l with
  | nil => cases hx
  | cons z zs ih =>
    rw [List.nodup_cons] at hl
    rcases List.mem_cons.mp hx with hzx | hzs
    · rw [List.filterMap_cons, ← hzx, hhx]
      have hnil : zs.filterMap h = [] := by
        rw [List.filterMap_eq_nil_iff]
        intro y hy
        apply hother y (List.mem_cons_of_mem _ hy)
        intro hyx
        rw [← hzx] at hl
        exact hl.1 (hyx ▸ hy)
      rw [hnil]
    · have hzne : z ≠ x := by
        intro hzx2
        exact hl.1 (hzx2 ▸ hzs)
      rw [List.filterMap_cons, hother z (List.mem_cons_self _ _) hzne]
      exact ih hl.2 hzs (fun y hy hyx => hother y (List.mem_cons_of_mem _ hy) hyx)

/-- C7: a player listed (only) on server A previously and (only) on a
different server B currently produces exactly one event mentioning that
player — the move A→B; no join and no leave for that player. -/
theorem c7_move_classification (prev curr : Generation) (p A B : String)
    (hPrev : listedOn prev p A) (hPrevU : ∀ s, listedOn prev p s → s = A)
    (hCurr : listedOn curr p B) (hCurrU : ∀ s, listedOn curr p s → s = B)
    (hAB : A ≠ B) :
    (diffEvents (buildIndex prev) (buildIndex curr)).filter
        (fun ev => eventPlayer ev == p) = [.move p A B] := by
  have hlp : lookupPS (buildIndex prev) p = some A :=
    lookupPS_buildIndex_unique prev p A hPrev hPrevU
  have hlc : lookupPS (buildIndex curr) p = some B :=
    lookupPS_buildIndex_unique curr p B hCurr hCurrU
  have hNc : NodupKeys (buildIndex curr) := nodupKeys_buildIndex curr
  have hNp : NodupKeys (buildIndex prev) := nodupKeys_buildIndex prev
  unfold diffEvents
  rw [List.filter_append]
  have h2 : (((buildIndex prev).filterMap (leaveEvent (buildIndex curr))).filter
      (fun ev => eventPlayer ev == p)) = [] := by
    rw [List.filter_eq_nil_iff]
    intro ev hev
    rcases List.mem_filterMap.mp hev with ⟨q, hq, hfq⟩
    unfold leaveEvent at hfq
    split at hfq
    · rename_i hl
      injection hfq with hfq
      by_cases hqp : q.1 = p
      · rw [hqp, hlc] at hl
        cases hl
      · rw [← hfq]
        simp [eventPlayer, hqp]
    · cases hfq
  have h1 : (((buildIndex curr).filterMap (joinMoveEvent (buildIndex prev))).filter
      (fun ev => eventPlayer ev == p)) = [.move p A B] := by
    rw [List.filter_filterMap]
    apply filterMap_eq_singleton _ _ (p, B) _ (List.Nodup.of_map _ hNc)
      ((mem_iff_lookupPS _ hNc p B).mpr hlc)
    · have : joinMoveEvent (buildIndex prev) (p, B) = some (.move p A B) :=
        (joinMoveEvent_eq_move _ (p, B) p A B).mpr ⟨hlp, rfl, rfl, hAB⟩
      rw [this, Option.filter_some, if_pos (by simp [eventPlayer])]
    · intro y hy hyx
      by_cases hyp : y.1 = p
      · have hyB : y.2 = B := by
          have : lookupPS (buildIndex curr) y.1 = some y.2 := by
            rw [← mem_iff_lookupPS _ hNc]
            cases y
            exact hy
          rw [hyp, hlc] at this
          injection this with h
          exact h.symm
        exact absurd (Prod.ext hyp hyB) hyx
      · cases hjm : joinMoveEvent (buildIndex prev) y with
        | none => rfl
        | some ev =>
          rw [Option.filter_some, if_neg]
          unfold joinMoveEvent at hjm
          split at hjm
          · injection hjm with hjm
            rw [← hjm]
            simp [eventPlayer, hyp]
          · rename_i o hl
            split at hjm
            · injection hjm with hjm
              rw [← hjm]
              simp [eventPlayer, hyp]
            · cases hjm
  rw [h1, h2, List.append_nil]

/-- A well-formed generation (one server per player), order 1. -/
def c8W1 : Generation :=
  [("A", { Name := "A", Players := ["p1"], Reachable := true }),
   ("B", { Name := "B", Players := ["p2"], Reachable := true })]

/-- The same generation, reordered. -/
def c8W2 : Generation :=
  [("B", { Name := "B", Players := ["p2"], Reachable := true }),
   ("A", { Name := "A", Players := ["p1"], Reachable := true })]

/-- Witness for C8 (amended): two-server generation versus its reversal. -/
theorem c8_order_independence_witness :
    (PresenceEvent.join "p1" "A" ∈ diffEvents (buildIndex []) (buildIndex c8W1))
      ↔ PresenceEvent.join "p1" "A" ∈ diffEvents (buildIndex []) (buildIndex c8W2) :=
  c8_order_independence [] [] c8W1 c8W2 (fun p s => Iff.rfl)
    (by
      intro p s
      constructor
      · rintro ⟨info, hmem, hp⟩
        refine ⟨info, ?_, hp⟩
        simp [c8W1] at hmem
        simp [c8W2]
        tauto
      · rintro ⟨info, hmem, hp⟩
        refine ⟨info, ?_, hp⟩
        simp [c8W2] at hmem
        simp [c8W1]
        tauto)
    (by
      intro p s t hs ht
      simp [listedOn] at hs)
    (by
      intro p s t hs ht
      obtain ⟨i1, hm1, hp1⟩ := hs
      obtain ⟨i2, hm2, hp2⟩ := ht
      simp [c8W1] at hm1 hm2
      rcases hm1 with ⟨hs1, hi1⟩ | ⟨hs1, hi1⟩ <;>
        rcases hm2 with ⟨ht1, hi2⟩ | ⟨ht1, hi2⟩ <;> subst hi1 <;> subst hi2
      · rw [hs1, ht1]
      · simp at hp1 hp2
        rw [hp1] at hp2
        exact absurd hp2 (by decide)
      · simp at hp1 hp2
        rw [hp1] at hp2
        exact absurd hp2 (by decide)
      · rw [hs1, ht1])
    (.join "p1" "A")

/-- The spec example's previous generation. -/
def c7Prev : Generation :=
  [("A", { Name := "A", Players := ["p1", "p2"], Reachable := true })]

/-- The spec example's current generation. -/
def c7Curr : Generation :=
  [("A", { Name := "A", Players := ["p1"], Reachable := true }),
   ("B", { Name := "B", Players := ["p2"], Reachable := true })]

/-- Witness for C7: the spec's example — previous `{A: [p1, p2]}`, current
`{A: [p1], B: [p2]}` yields exactly the move `p2: A→B`. -/
theorem c7_move_classification_witness :
    (diffEvents (buildIndex c7Prev) (buildIndex c7Curr)).filter
        (fun ev => eventPlayer ev == "p2") = [.move "p2" "A" "B"] :=
  c7_move_classification c7Prev c7Curr "p2" "A" "B"
    ⟨{ Name := "A", Players := ["p1", "p2"], Reachable := true }, by simp [c7Prev], by decide⟩
    (by
      intro s hs
      obtain ⟨i1, hm1, hp1⟩ := hs
      simp [c7Prev] at hm1
      exact hm1.1)
    ⟨{ Name := "B", Players := ["p2"], Reachable := true }, by simp [c7Curr], by decide⟩
    (by
      intro s hs
      obtain ⟨i1, hm1, hp1⟩ := hs
      simp [c7Curr] at hm1
      rcases hm1 with ⟨hs1, hi1⟩ | ⟨hs1, hi1⟩ <;> subst hi1
      · exact absurd hp1 (by decide)
      · exact hs1)
    (by decide)

end LazyDodo
